import Mathlib

/-!
# Verification of `range-split`

A shallow embedding of the `range-split` Rust crate:

* `str.rs` — UTF-8 range validation over strings (`is_valid_range`,
  `validate_index`, `validate_next_index`, `range_fail_internal`);
* `mem.rs` — `convert_inclusive_range`;
* `bytes.rs` / `take_range.rs` — the `TakeRange` implementations for the
  `Bytes` and `BytesMut` buffer types of the `bytes` crate.

Strings and byte buffers are modelled as `List Nat` of byte values; a Rust
operation that can panic is modelled as returning `Option` (`none` = panic).
`usize` values are modelled as `Nat`, with the overflow check of
`usize::checked_add` made explicit against `USIZE_MAX`.
-/

namespace RangeSplit

/-- The maximum value of `usize` (64-bit platform). -/
def USIZE_MAX : Nat := 2 ^ 64 - 1

/-! ## Model of `str.rs` -/

/-- A UTF-8 continuation byte is one matching `0b10xxxxxx`, i.e. in
`[0x80, 0xC0)`.  Rust's `u8::is_utf8_char_boundary` is
`(b as i8) >= -0x40`, whose negation is exactly this predicate. -/
def isUtf8ContinuationByte (b : Nat) : Bool :=
  decide (0x80 ≤ b) && decide (b < 0xC0)

/-- Model of Rust `str::is_char_boundary`: index `0` is always a boundary;
an index equal to the byte length is a boundary; an index past the end is
not; otherwise the byte at the index must not be a continuation byte. -/
def is_char_boundary (s : List Nat) (i : Nat) : Bool :=
  if i = 0 then true
  else
    match s.get? i with
    | none => decide (i = s.length)
    | some b => ! isUtf8ContinuationByte b

/-- The two failure causes of bound validation, from `enum InvalidBound`. -/
inductive InvalidBound where
  | OutOfBuffer
  | NotCharBoundary
deriving DecidableEq, Repr

/-- A range bound, from `core::ops::Bound<usize>`. -/
inductive Bound where
  | Unbounded
  | Included (i : Nat)
  | Excluded (i : Nat)
deriving DecidableEq, Repr

/-- A generic range as a pair of bounds, the view that
`core::ops::RangeBounds<usize>` offers to `is_valid_range`. -/
structure GenRange where
  start_bound : Bound
  end_bound : Bound
deriving DecidableEq, Repr

/-- Model of `validate_index` in `str.rs`: boundary check first (the fast
path), then discern out-of-buffer from not-on-boundary. -/
def validate_index (s : List Nat) (index : Nat) : Except InvalidBound Unit :=
  if is_char_boundary s index then .ok ()
  else if s.length < index then .error .OutOfBuffer
  else .error .NotCharBoundary

/-- Model of `validate_next_index` in `str.rs`: the out-of-buffer check
`index >= s.len()` comes first, which in the Rust code also rules out
integer overflow in `index + 1`. -/
def validate_next_index (s : List Nat) (index : Nat) : Except InvalidBound Unit :=
  if s.length ≤ index then .error .OutOfBuffer
  else if is_char_boundary s (index + 1) then .ok ()
  else .error .NotCharBoundary

/-- Model of `validate_start_bound` in `str.rs`. -/
def validate_start_bound (s : List Nat) : Bound → Except InvalidBound Unit
  | .Unbounded => .ok ()
  | .Included i => validate_index s i
  | .Excluded i => validate_next_index s i

/-- Model of `validate_end_bound` in `str.rs`. -/
def validate_end_bound (s : List Nat) : Bound → Except InvalidBound Unit
  | .Unbounded => .ok ()
  | .Excluded i => validate_index s i
  | .Included i => validate_next_index s i

/-- Model of `Result::is_ok`. -/
def is_ok : Except InvalidBound Unit → Bool
  | .ok _ => true
  | .error _ => false

/-- Model of `is_valid_range` in `str.rs`: both bounds validate. -/
def is_valid_range (s : List Nat) (r : GenRange) : Bool :=
  is_ok (validate_start_bound s r.start_bound)
    && is_ok (validate_end_bound s r.end_bound)

/-- The observable outcome of `range_fail_internal`, which in Rust never
returns: it panics with an out-of-bounds message, panics with a UTF-8
boundary message, or hits `unreachable!`. -/
inductive PanicKind where
  | OutOfBounds
  | NotUtf8Boundary
  | InternalUnreachable
deriving DecidableEq, Repr

/-- Model of `range_fail_internal` in `str.rs`: re-derives the validity of
both bounds and classifies the failure; the match arms keep the order of
the Rust `match`. -/
def range_fail_internal (s : List Nat) (sb eb : Bound) : PanicKind :=
  match validate_start_bound s sb, validate_end_bound s eb with
  | .error .OutOfBuffer, _ => .OutOfBounds
  | _, .error .OutOfBuffer => .OutOfBounds
  | .error .NotCharBoundary, _ => .NotUtf8Boundary
  | _, .error .NotCharBoundary => .NotUtf8Boundary
  | .ok _, .ok _ => .InternalUnreachable

/-! ## Model of `mem.rs` -/

/-- Model of `convert_inclusive_range` in `mem.rs`:
`..range.end.checked_add(1).expect("integer overflow")`.  `checked_add`
fails exactly when the sum would exceed `USIZE_MAX`; the `expect` turns
that into a panic, modelled as `none`. -/
def convert_inclusive_range (e : Nat) : Option Nat :=
  if e + 1 ≤ USIZE_MAX then some (e + 1) else none

/-! ## Model of `bytes.rs`

The four range shapes for which `TakeRange` is implemented:
`RangeFull`, `RangeFrom<usize>`, `RangeTo<usize>`,
`RangeToInclusive<usize>`. -/

/-- The four Rust range types a `TakeRange` implementation exists for. -/
inductive TRange where
  | full
  | fromStart (start : Nat)
  | toExcl (stop : Nat)
  | toIncl (stop : Nat)
deriving DecidableEq, Repr

namespace Bytes

/-- `Bytes::split_off(at)`: returns the bytes from `at` on, keeps `[0, at)`;
panics when `at > len`.  Result is `(returned value, buffer after)`. -/
def split_off (b : List Nat) (i : Nat) : Option (List Nat × List Nat) :=
  if i ≤ b.length then some (b.drop i, b.take i) else none

/-- `Bytes::split_to(at)`: returns `[0, at)`, keeps the bytes from `at` on;
panics when `at > len`.  Result is `(returned value, buffer after)`. -/
def split_to (b : List Nat) (i : Nat) : Option (List Nat × List Nat) :=
  if i ≤ b.length then some (b.take i, b.drop i) else none

/-- `Bytes::clear()`: empties the buffer. -/
def clear (_b : List Nat) : List Nat := []

/-- `Bytes::truncate(len)`: keeps the first `len` bytes; no effect when
`len` exceeds the current length, never panics. -/
def truncate (b : List Nat) (n : Nat) : List Nat := b.take n

/-- `Bytes::advance(cnt)` (from `bytes::Buf`): drops the first `cnt` bytes;
panics when `cnt > len`. -/
def advance (b : List Nat) (n : Nat) : Option (List Nat) :=
  if n ≤ b.length then some (b.drop n) else none

/-- `impl TakeRange<_> for Bytes`, `take_range` methods, per range shape as
in `bytes.rs`.  The inclusive shape converts via `convert_inclusive_range`
and delegates to the `RangeTo` implementation, i.e. `split_to`. -/
def take_range (b : List Nat) : TRange → Option (List Nat × List Nat)
  | .full => split_off b 0
  | .fromStart s => split_off b s
  | .toExcl e => split_to b e
  | .toIncl e => (convert_inclusive_range e).bind (fun e2 => split_to b e2)

/-- `impl TakeRange<_> for Bytes`, specialized `remove_range` overrides:
`clear` for the full range, `truncate` for `RangeFrom`, `advance` for
`RangeTo`, and conversion plus delegation for `RangeToInclusive`. -/
def remove_range (b : List Nat) : TRange → Option (List Nat)
  | .full => some (clear b)
  | .fromStart s => some (truncate b s)
  | .toExcl e => advance b e
  | .toIncl e => (convert_inclusive_range e).bind (fun e2 => advance b e2)

/-- The default `TakeRange::remove_range` from `take_range.rs`: call
`take_range` and discard the returned value. -/
def remove_range_default (b : List Nat) (r : TRange) : Option (List Nat) :=
  (take_range b r).map Prod.snd

end Bytes

namespace BytesMut

/-- `BytesMut::split_off(at)`: same length-level semantics as for `Bytes`. -/
def split_off (b : List Nat) (i : Nat) : Option (List Nat × List Nat) :=
  if i ≤ b.length then some (b.drop i, b.take i) else none

/-- `BytesMut::split_to(at)`. -/
def split_to (b : List Nat) (i : Nat) : Option (List Nat × List Nat) :=
  if i ≤ b.length then some (b.take i, b.drop i) else none

/-- `BytesMut::clear()`. -/
def clear (_b : List Nat) : List Nat := []

/-- `BytesMut::truncate(len)`: never panics. -/
def truncate (b : List Nat) (n : Nat) : List Nat := b.take n

/-- `BytesMut::advance(cnt)`: panics when `cnt > len`. -/
def advance (b : List Nat) (n : Nat) : Option (List Nat) :=
  if n ≤ b.length then some (b.drop n) else none

/-- `std::mem::take(self)` used by the `RangeFull` implementation for
`BytesMut`: returns the whole buffer, leaves the default empty buffer. -/
def take (b : List Nat) : List Nat × List Nat := (b, [])

/-- `impl TakeRange<_> for BytesMut`, `take_range` methods: the full range
uses `self.take()`, the rest match the `Bytes` implementation. -/
def take_range (b : List Nat) : TRange → Option (List Nat × List Nat)
  | .full => some (take b)
  | .fromStart s => split_off b s
  | .toExcl e => split_to b e
  | .toIncl e => (convert_inclusive_range e).bind (fun e2 => split_to b e2)

/-- `impl TakeRange<_> for BytesMut`, specialized `remove_range` overrides. -/
def remove_range (b : List Nat) : TRange → Option (List Nat)
  | .full => some (clear b)
  | .fromStart s => some (truncate b s)
  | .toExcl e => advance b e
  | .toIncl e => (convert_inclusive_range e).bind (fun e2 => advance b e2)

/-- The default `TakeRange::remove_range` from `take_range.rs` for
`BytesMut`. -/
def remove_range_default (b : List Nat) (r : TRange) : Option (List Nat) :=
  (take_range b r).map Prod.snd

end BytesMut

/-! ## Spec-side predicates for claim C1

These two definitions follow the words of the specification (not the
code) and are compared with `is_valid_range` in the C1 theorem. -/

/-- Spec-side validity of a start bound: unbounded is always valid;
inclusive at `i` demands a boundary at `i`; exclusive at `i` demands `i`
within bounds and a boundary at `i + 1`. -/
def startBoundValidSpec (s : List Nat) : Bound → Prop
  | .Unbounded => True
  | .Included i => is_char_boundary s i = true
  | .Excluded i => i < s.length ∧ is_char_boundary s (i + 1) = true

/-- Spec-side validity of an end bound: unbounded is always valid;
exclusive at `i` demands a boundary at `i`; inclusive at `i` demands `i`
within bounds and a boundary at `i + 1`. -/
def endBoundValidSpec (s : List Nat) : Bound → Prop
  | .Unbounded => True
  | .Excluded i => is_char_boundary s i = true
  | .Included i => i < s.length ∧ is_char_boundary s (i + 1) = true

/-! ## Helper lemmas -/

/-- Index `0` is always a char boundary. -/
theorem is_char_boundary_zero (s : List Nat) : is_char_boundary s 0 = true := by
  simp [is_char_boundary]

/-- The byte length is always a char boundary. -/
theorem is_char_boundary_length (s : List Nat) :
    is_char_boundary s s.length = true := by
  unfold is_char_boundary
  by_cases h : s.length = 0
  · simp [h]
  · simp [h, List.get?_eq_none.mpr (le_refl s.length)]

/-- `is_ok` holds exactly on `.ok ()`. -/
theorem is_ok_iff (v : Except InvalidBound Unit) : is_ok v = true ↔ v = .ok () := by
  cases v with
  | ok u => cases u; simp [is_ok]
  | error e => simp [is_ok]

/-- `validate_index` succeeds exactly on char boundaries. -/
theorem validate_index_ok_iff (s : List Nat) (i : Nat) :
    validate_index s i = .ok () ↔ is_char_boundary s i = true := by
  unfold validate_index
  split
  next h => simp [h]
  next h => split <;> simp [h]

/-- `validate_index` reports out-of-buffer exactly on non-boundaries past
the length. -/
theorem validate_index_oob_iff (s : List Nat) (i : Nat) :
    validate_index s i = .error .OutOfBuffer ↔
      is_char_boundary s i = false ∧ s.length < i := by
  unfold validate_index
  split
  next h => simp [h]
  next h => split <;> simp_all

/-- `validate_index` reports not-on-boundary exactly on non-boundaries
within the length. -/
theorem validate_index_ncb_iff (s : List Nat) (i : Nat) :
    validate_index s i = .error .NotCharBoundary ↔
      is_char_boundary s i = false ∧ i ≤ s.length := by
  unfold validate_index
  split
  next h => simp [h]
  next h => split <;> simp_all

/-- `validate_next_index` succeeds exactly when the index is in bounds and
the next position is a char boundary. -/
theorem validate_next_index_ok_iff (s : List Nat) (i : Nat) :
    validate_next_index s i = .ok () ↔
      i < s.length ∧ is_char_boundary s (i + 1) = true := by
  unfold validate_next_index
  split
  next h => simp; omega
  next h => split <;> simp_all

/-- `validate_next_index` reports out-of-buffer exactly when the index
reaches the length. -/
theorem validate_next_index_oob_iff (s : List Nat) (i : Nat) :
    validate_next_index s i = .error .OutOfBuffer ↔ s.length ≤ i := by
  unfold validate_next_index
  split
  next h => simp [h]
  next h => split <;> simp_all

/-- `validate_next_index` reports not-on-boundary exactly when the index is
in bounds but the next position is not a boundary. -/
theorem validate_next_index_ncb_iff (s : List Nat) (i : Nat) :
    validate_next_index s i = .error .NotCharBoundary ↔
      i < s.length ∧ is_char_boundary s (i + 1) = false := by
  unfold validate_next_index
  split
  next h => simp; omega
  next h => split <;> simp_all

/-- Enumeration of the three values of `Except InvalidBound Unit`. -/
theorem except_cases (v : Except InvalidBound Unit) :
    v = .ok () ∨ v = .error .OutOfBuffer ∨ v = .error .NotCharBoundary := by
  cases v with
  | ok u => cases u; exact Or.inl rfl
  | error e =>
      cases e with
      | OutOfBuffer => exact Or.inr (Or.inl rfl)
      | NotCharBoundary => exact Or.inr (Or.inr rfl)

/-- Inversion for `Bytes.take_range`: a successful take accounts for the
whole length, and the specialized `remove_range` leaves exactly the
remaining buffer. -/
theorem Bytes.take_range_inversion (b : List Nat) (r : TRange) (out rest : List Nat)
    (h : Bytes.take_range b r = some (out, rest)) :
    out.length + rest.length = b.length ∧ Bytes.remove_range b r = some rest := by
  cases r with
  | full =>
      simp [Bytes.take_range, Bytes.split_off] at h
      obtain ⟨h1, h2⟩ := h
      subst h1
      subst h2
      exact ⟨by simp, by simp [Bytes.remove_range, Bytes.clear]⟩
  | fromStart s =>
      simp only [Bytes.take_range, Bytes.split_off] at h
      split at h
      next hs =>
        simp only [Option.some.injEq, Prod.mk.injEq] at h
        obtain ⟨h1, h2⟩ := h
        subst h1
        subst h2
        exact ⟨by simp; omega, by simp [Bytes.remove_range, Bytes.truncate]⟩
      next => simp at h
  | toExcl e =>
      simp only [Bytes.take_range, Bytes.split_to] at h
      split at h
      next he =>
        simp only [Option.some.injEq, Prod.mk.injEq] at h
        obtain ⟨h1, h2⟩ := h
        subst h1
        subst h2
        exact ⟨by simp; omega, by simp [Bytes.remove_range, Bytes.advance, he]⟩
      next => simp at h
  | toIncl e =>
      simp only [Bytes.take_range] at h
      rcases hc : convert_inclusive_range e with _ | e2
      · rw [hc] at h
        simp at h
      · rw [hc] at h
        simp only [Option.some_bind, Bytes.split_to] at h
        split at h
        next he =>
          simp only [Option.some.injEq, Prod.mk.injEq] at h
          obtain ⟨h1, h2⟩ := h
          subst h1
          subst h2
          refine ⟨by simp; omega, ?_⟩
          simp [Bytes.remove_range, hc, Bytes.advance, he]
        next => simp at h

/-- Inversion for `BytesMut.take_range`, mirroring the `Bytes` case. -/
theorem BytesMut.take_range_inversion_mut (b : List Nat) (r : TRange) (out rest : List Nat)
    (h : BytesMut.take_range b r = some (out, rest)) :
    out.length + rest.length = b.length ∧ BytesMut.remove_range b r = some rest := by
  cases r with
  | full =>
      simp [BytesMut.take_range, BytesMut.take] at h
      obtain ⟨h1, h2⟩ := h
      subst h1
      subst h2
      exact ⟨by simp, by simp [BytesMut.remove_range, BytesMut.clear]⟩
  | fromStart s =>
      simp only [BytesMut.take_range, BytesMut.split_off] at h
      split at h
      next hs =>
        simp only [Option.some.injEq, Prod.mk.injEq] at h
        obtain ⟨h1, h2⟩ := h
        subst h1
        subst h2
        exact ⟨by simp; omega, by simp [BytesMut.remove_range, BytesMut.truncate]⟩
      next => simp at h
  | toExcl e =>
      simp only [BytesMut.take_range, BytesMut.split_to] at h
      split at h
      next he =>
        simp only [Option.some.injEq, Prod.mk.injEq] at h
        obtain ⟨h1, h2⟩ := h
        subst h1
        subst h2
        exact ⟨by simp; omega, by simp [BytesMut.remove_range, BytesMut.advance, he]⟩
      next => simp at h
  | toIncl e =>
      simp only [BytesMut.take_range] at h
      rcases hc : convert_inclusive_range e with _ | e2
      · rw [hc] at h
        simp at h
      · rw [hc] at h
        simp only [Option.some_bind, BytesMut.split_to] at h
        split at h
        next he =>
          simp only [Option.some.injEq, Prod.mk.injEq] at h
          obtain ⟨h1, h2⟩ := h
          subst h1
          subst h2
          refine ⟨by simp; omega, ?_⟩
          simp [BytesMut.remove_range, hc, BytesMut.advance, he]
        next => simp at h

/-! ## Claim theorems -/

/-- C1: for every string `s` and range `r`, `is_valid_range s r` returns
true iff both bounds are valid under the asymmetric interpretation: an
unbounded bound is always valid; an inclusive start at `i` is valid iff
`i` is a code-point boundary; an exclusive start at `i` is valid iff `i`
is within bounds and `i + 1` is a boundary; an exclusive end at `i` is
valid iff `i` is a boundary; an inclusive end at `i` is valid iff `i` is
within bounds and `i + 1` is a boundary. -/
theorem is_valid_range_iff_spec (s : List Nat) (r : GenRange) :
    is_valid_range s r = true ↔
      startBoundValidSpec s r.start_bound ∧ endBoundValidSpec s r.end_bound := by
  obtain ⟨sb, eb⟩ := r
  cases sb <;> cases eb <;>
    simp [is_valid_range, validate_start_bound, validate_end_bound,
      startBoundValidSpec, endBoundValidSpec, is_ok_iff,
      validate_index_ok_iff, validate_next_index_ok_iff]

/-- C2: the single-index check `validate_index` classifies an index as
valid iff it is a recognized code-point boundary (including `0` and the
length), as out-of-buffer iff it is not a boundary and exceeds the length,
and as not-on-boundary otherwise; the next-index check
`validate_next_index` classifies an index as out-of-buffer whenever it is
at least the length (so `i + 1` is never computed when it could overflow),
as valid when it is in bounds and `i + 1` is a boundary, and as
not-on-boundary when it is in bounds and `i + 1` is not a boundary. -/
theorem validate_index_classification (s : List Nat) (i : Nat) :
    is_char_boundary s 0 = true
    ∧ is_char_boundary s s.length = true
    ∧ (validate_index s i = .ok () ↔ is_char_boundary s i = true)
    ∧ (validate_index s i = .error .OutOfBuffer ↔
        is_char_boundary s i = false ∧ s.length < i)
    ∧ (validate_index s i = .error .NotCharBoundary ↔
        is_char_boundary s i = false ∧ i ≤ s.length)
    ∧ (validate_next_index s i = .error .OutOfBuffer ↔ s.length ≤ i)
    ∧ (validate_next_index s i = .ok () ↔
        i < s.length ∧ is_char_boundary s (i + 1) = true)
    ∧ (validate_next_index s i = .error .NotCharBoundary ↔
        i < s.length ∧ is_char_boundary s (i + 1) = false) :=
  ⟨is_char_boundary_zero s, is_char_boundary_length s,
    validate_index_ok_iff s i, validate_index_oob_iff s i,
    validate_index_ncb_iff s i, validate_next_index_oob_iff s i,
    validate_next_index_ok_iff s i, validate_next_index_ncb_iff s i⟩

/-- C3: for a buffer of length `n` with in-bounds indices, `take_range`
with a from-range returns the region from `start` on and leaves `[0,
start)`; `remove_range` leaves `[0, start)`; `take_range` with a
to-exclusive range returns `[0, stop)` and leaves the bytes from `stop` on,
reindexed from zero; `remove_range` leaves the bytes from `stop` on — for
both `Bytes` and `BytesMut`. -/
theorem take_remove_from_to_regions (b : List Nat) (s e : Nat)
    (hs : s ≤ b.length) (he : e ≤ b.length) :
    Bytes.take_range b (.fromStart s) = some (b.drop s, b.take s)
    ∧ Bytes.remove_range b (.fromStart s) = some (b.take s)
    ∧ Bytes.take_range b (.toExcl e) = some (b.take e, b.drop e)
    ∧ Bytes.remove_range b (.toExcl e) = some (b.drop e)
    ∧ BytesMut.take_range b (.fromStart s) = some (b.drop s, b.take s)
    ∧ BytesMut.remove_range b (.fromStart s) = some (b.take s)
    ∧ BytesMut.take_range b (.toExcl e) = some (b.take e, b.drop e)
    ∧ BytesMut.remove_range b (.toExcl e) = some (b.drop e) := by
  simp [Bytes.take_range, Bytes.remove_range, Bytes.split_off, Bytes.split_to,
    Bytes.truncate, Bytes.advance, BytesMut.take_range, BytesMut.remove_range,
    BytesMut.split_off, BytesMut.split_to, BytesMut.truncate, BytesMut.advance,
    hs, he]

/-- Witness for C3 at buffer `[10, 20, 30]`, `start = 1`, `stop = 2`. -/
theorem take_remove_from_to_regions_witness :
    (1 ≤ ([10, 20, 30] : List Nat).length ∧ 2 ≤ ([10, 20, 30] : List Nat).length)
    ∧ (Bytes.take_range [10, 20, 30] (.fromStart 1) = some ([20, 30], [10])
      ∧ Bytes.remove_range [10, 20, 30] (.fromStart 1) = some [10]
      ∧ Bytes.take_range [10, 20, 30] (.toExcl 2) = some ([10, 20], [30])
      ∧ Bytes.remove_range [10, 20, 30] (.toExcl 2) = some [30]
      ∧ BytesMut.take_range [10, 20, 30] (.fromStart 1) = some ([20, 30], [10])
      ∧ BytesMut.remove_range [10, 20, 30] (.fromStart 1) = some [10]
      ∧ BytesMut.take_range [10, 20, 30] (.toExcl 2) = some ([10, 20], [30])
      ∧ BytesMut.remove_range [10, 20, 30] (.toExcl 2) = some [30]) :=
  ⟨⟨by decide, by decide⟩,
    take_remove_from_to_regions [10, 20, 30] 1 2 (by decide) (by decide)⟩

/-- C4: for every buffer, every range shape, and every successful take,
the length of the returned value plus the length of the remaining buffer
equals the original length, and `remove_range` leaves exactly that
remaining buffer (so the same accounting holds after a remove) — for both
`Bytes` and `BytesMut`. -/
theorem take_range_length_accounting (b : List Nat) (r : TRange)
    (out rest : List Nat) :
    (Bytes.take_range b r = some (out, rest) →
      out.length + rest.length = b.length ∧ Bytes.remove_range b r = some rest)
    ∧ (BytesMut.take_range b r = some (out, rest) →
      out.length + rest.length = b.length ∧ BytesMut.remove_range b r = some rest) :=
  ⟨fun h => Bytes.take_range_inversion b r out rest h,
    fun h => BytesMut.take_range_inversion_mut b r out rest h⟩

/-- Witness for C4 at buffer `[7, 8, 9]` with the inclusive range to `1`. -/
theorem take_range_length_accounting_witness :
    Bytes.take_range [7, 8, 9] (.toIncl 1) = some ([7, 8], [9])
    ∧ ([7, 8] : List Nat).length + ([9] : List Nat).length
        = ([7, 8, 9] : List Nat).length
    ∧ Bytes.remove_range [7, 8, 9] (.toIncl 1) = some [9]
    ∧ BytesMut.take_range [7, 8, 9] (.toIncl 1) = some ([7, 8], [9])
    ∧ BytesMut.remove_range [7, 8, 9] (.toIncl 1) = some [9] :=
  ⟨by decide,
    ((take_range_length_accounting [7, 8, 9] (.toIncl 1) [7, 8] [9]).1
      (by decide)).1,
    ((take_range_length_accounting [7, 8, 9] (.toIncl 1) [7, 8] [9]).1
      (by decide)).2,
    by decide,
    ((take_range_length_accounting [7, 8, 9] (.toIncl 1) [7, 8] [9]).2
      (by decide)).2⟩

/-- C5: for every buffer and every `e` below `usize::MAX`, taking or
removing with the inclusive range to `e` behaves exactly like taking or
removing with the exclusive range to `e + 1`, on both `Bytes` and
`BytesMut` — including agreement on panics, since the two sides are equal
as `Option` values. -/
theorem toIncl_equiv_toExcl_succ (b : List Nat) (e : Nat) (h : e < USIZE_MAX) :
    Bytes.take_range b (.toIncl e) = Bytes.take_range b (.toExcl (e + 1))
    ∧ Bytes.remove_range b (.toIncl e) = Bytes.remove_range b (.toExcl (e + 1))
    ∧ BytesMut.take_range b (.toIncl e) = BytesMut.take_range b (.toExcl (e + 1))
    ∧ BytesMut.remove_range b (.toIncl e)
        = BytesMut.remove_range b (.toExcl (e + 1)) := by
  have h1 : e + 1 ≤ USIZE_MAX := h
  have hc : convert_inclusive_range e = some (e + 1) := by
    simp [convert_inclusive_range, h1]
  simp [Bytes.take_range, Bytes.remove_range, BytesMut.take_range,
    BytesMut.remove_range, hc]

/-- Witness for C5 at buffer `[4, 5]` and `e = 0`. -/
theorem toIncl_equiv_toExcl_succ_witness :
    0 < USIZE_MAX
    ∧ (Bytes.take_range [4, 5] (.toIncl 0) = Bytes.take_range [4, 5] (.toExcl 1)
      ∧ Bytes.remove_range [4, 5] (.toIncl 0)
          = Bytes.remove_range [4, 5] (.toExcl 1)
      ∧ BytesMut.take_range [4, 5] (.toIncl 0)
          = BytesMut.take_range [4, 5] (.toExcl 1)
      ∧ BytesMut.remove_range [4, 5] (.toIncl 0)
          = BytesMut.remove_range [4, 5] (.toExcl 1)) :=
  ⟨by decide, toIncl_equiv_toExcl_succ [4, 5] 0 (by decide)⟩

/-- C6: `convert_inclusive_range` returns `e + 1` for every `e` below
`usize::MAX` and fails (modelled as `none`, for the Rust panic — it never
wraps to `0`) at `usize::MAX`; consequently `take_range` and
`remove_range` with the inclusive range to `usize::MAX` fail for every
buffer, on both `Bytes` and `BytesMut`. -/
theorem convert_inclusive_range_guard (e : Nat) (b : List Nat)
    (h : e < USIZE_MAX) :
    convert_inclusive_range e = some (e + 1)
    ∧ convert_inclusive_range USIZE_MAX = none
    ∧ Bytes.take_range b (.toIncl USIZE_MAX) = none
    ∧ Bytes.remove_range b (.toIncl USIZE_MAX) = none
    ∧ BytesMut.take_range b (.toIncl USIZE_MAX) = none
    ∧ BytesMut.remove_range b (.toIncl USIZE_MAX) = none := by
  have h1 : e + 1 ≤ USIZE_MAX := h
  have hmax : convert_inclusive_range USIZE_MAX = none := by
    unfold convert_inclusive_range
    rw [if_neg (by omega)]
  refine ⟨by simp [convert_inclusive_range, h1], hmax, ?_, ?_, ?_, ?_⟩ <;>
    simp [Bytes.take_range, Bytes.remove_range, BytesMut.take_range,
      BytesMut.remove_range, hmax]

/-- Witness for C6 at `e = 2` and buffer `[1]`. -/
theorem convert_inclusive_range_guard_witness :
    2 < USIZE_MAX
    ∧ (convert_inclusive_range 2 = some 3
      ∧ convert_inclusive_range USIZE_MAX = none
      ∧ Bytes.take_range [1] (.toIncl USIZE_MAX) = none
      ∧ Bytes.remove_range [1] (.toIncl USIZE_MAX) = none
      ∧ BytesMut.take_range [1] (.toIncl USIZE_MAX) = none
      ∧ BytesMut.remove_range [1] (.toIncl USIZE_MAX) = none) :=
  ⟨by decide, convert_inclusive_range_guard 2 [1] (by decide)⟩

/-- C7: for every buffer and every range valid for it (the take succeeds),
the specialized `remove_range` override — `clear`, `truncate`, `advance`,
or the converted delegation — leaves the buffer in exactly the state the
default trait implementation (take, then discard the result) would, on
both `Bytes` and `BytesMut`. -/
theorem remove_range_agrees_default (b : List Nat) (r : TRange)
    (h1 : (Bytes.take_range b r).isSome = true)
    (h2 : (BytesMut.take_range b r).isSome = true) :
    Bytes.remove_range b r = Bytes.remove_range_default b r
    ∧ BytesMut.remove_range b r = BytesMut.remove_range_default b r := by
  constructor
  · obtain ⟨⟨out, rest⟩, hp⟩ := Option.isSome_iff_exists.mp h1
    have hinv := Bytes.take_range_inversion b r out rest hp
    simp [Bytes.remove_range_default, hp, hinv.2]
  · obtain ⟨⟨out, rest⟩, hp⟩ := Option.isSome_iff_exists.mp h2
    have hinv := BytesMut.take_range_inversion_mut b r out rest hp
    simp [BytesMut.remove_range_default, hp, hinv.2]

/-- Witness for C7 at buffer `[9]` with the full range. -/
theorem remove_range_agrees_default_witness :
    (Bytes.take_range [9] .full).isSome = true
    ∧ (BytesMut.take_range [9] .full).isSome = true
    ∧ (Bytes.remove_range [9] .full = Bytes.remove_range_default [9] .full
      ∧ BytesMut.remove_range [9] .full
          = BytesMut.remove_range_default [9] .full) :=
  ⟨by decide, by decide,
    remove_range_agrees_default [9] .full (by decide) (by decide)⟩

/-- C8: `range_fail_internal` classifies its panic as out-of-bounds
exactly when some bound validates as out-of-buffer, as the UTF-8 boundary
panic exactly when some bound validates as not-on-boundary and neither is
out-of-buffer, and hits the internal-consistency failure (`unreachable!`)
exactly when the range is actually valid. -/
theorem range_fail_classification (s : List Nat) (sb eb : Bound) :
    (range_fail_internal s sb eb = .OutOfBounds ↔
      validate_start_bound s sb = .error .OutOfBuffer
      ∨ validate_end_bound s eb = .error .OutOfBuffer)
    ∧ (range_fail_internal s sb eb = .NotUtf8Boundary ↔
      (validate_start_bound s sb = .error .NotCharBoundary
        ∨ validate_end_bound s eb = .error .NotCharBoundary)
      ∧ validate_start_bound s sb ≠ .error .OutOfBuffer
      ∧ validate_end_bound s eb ≠ .error .OutOfBuffer)
    ∧ (range_fail_internal s sb eb = .InternalUnreachable ↔
      is_valid_range s ⟨sb, eb⟩ = true) := by
  rcases except_cases (validate_start_bound s sb) with h1 | h1 | h1 <;>
    rcases except_cases (validate_end_bound s eb) with h2 | h2 | h2 <;>
      simp [range_fail_internal, is_valid_range, is_ok, h1, h2]

/-- C9: taking the full range returns the entire prior contents and leaves
the buffer empty, and removing the full range leaves the buffer empty, on
both `Bytes` and `BytesMut`; in particular the full-range take on an
already empty buffer succeeds, returning an empty buffer and leaving an
empty buffer. -/
theorem take_range_full_empties (b : List Nat) :
    Bytes.take_range b .full = some (b, [])
    ∧ Bytes.remove_range b .full = some []
    ∧ BytesMut.take_range b .full = some (b, [])
    ∧ BytesMut.remove_range b .full = some []
    ∧ Bytes.take_range ([] : List Nat) .full = some ([], [])
    ∧ BytesMut.take_range ([] : List Nat) .full = some ([], []) := by
  simp [Bytes.take_range, Bytes.split_off, Bytes.remove_range, Bytes.clear,
    BytesMut.take_range, BytesMut.take, BytesMut.remove_range, BytesMut.clear]

/-- C10: `is_valid_range` imposes no ordering constraint between the two
bounds: whenever `a` and `b` are both code-point boundaries of `s`, the
range `a..b` (inclusive start `a`, exclusive end `b`) validates — also
when `a > b`. -/
theorem is_valid_range_ignores_order (s : List Nat) (a b : Nat)
    (ha : is_char_boundary s a = true) (hb : is_char_boundary s b = true) :
    is_valid_range s ⟨.Included a, .Excluded b⟩ = true := by
  simp [is_valid_range, validate_start_bound, validate_end_bound, is_ok_iff,
    validate_index_ok_iff, ha, hb]

/-- Witness for C10: the reversed range `2..0` on the two-byte ASCII
string `"hi"` passes validation. -/
theorem is_valid_range_ignores_order_witness :
    2 > 0
    ∧ is_char_boundary [104, 105] 2 = true
    ∧ is_char_boundary [104, 105] 0 = true
    ∧ is_valid_range [104, 105] ⟨.Included 2, .Excluded 0⟩ = true :=
  ⟨by decide, by decide, by decide,
    is_valid_range_ignores_order [104, 105] 2 0 (by decide) (by decide)⟩

end RangeSplit
